import Mathlib

/-!
Verification of the merit-order production-plan service (src/app.py).

The embedding models the numbers of the JSON payload as exact rationals
(`ℚ`).  Python exceptions are modelled with `Except PyErr`: float division
by zero raises `ZeroDivisionError` in Python, and `next` on an exhausted
generator raises `StopIteration`; both appear as explicit error values.
Python's built-in `round(x, 1)` (banker's rounding to one decimal) is
modelled by `round1`, which rounds the exact rational half-to-even at one
decimal place.  Python's stable `sorted(..., key=lambda x: x[0])` is
modelled by insertion sort on the first component, which computes the same
(unique) stable ascending reordering.
-/

/-- One entry of the `powerplants` array of the request payload. -/
structure Powerplant where
  name : String
  type : String
  efficiency : ℚ
  pmin : ℚ
  pmax : ℚ

/-- The `fuels` object of the request payload.  Field `co2` is the JSON key
with the euro-per-ton price, `gas` and `kerosine` are the euro-per-MWh keys,
and `windPct` is the percentage under the wind key. -/
structure Fuels where
  co2 : ℚ
  gas : ℚ
  windPct : ℚ
  kerosine : ℚ

/-- A full request payload for POST /productionplan. -/
structure Payload where
  load : ℚ
  fuels : Fuels
  powerplants : List Powerplant

/-- The Python exceptions that the code of src/app.py can raise. -/
inductive PyErr where
  | zeroDivision : PyErr
  | stopIteration : PyErr
deriving DecidableEq

/-- One element of the JSON array returned by the handler: either a normal
per-unit dictionary with name and rounded power, or the infeasibility
message dictionary. -/
inductive OutItem where
  | entry (name : String) (p : ℚ) : OutItem
  | message (msg : String) : OutItem
deriving DecidableEq

/-- The name carried by an output item (the message item carries none). -/
def outName : OutItem → String
  | OutItem.entry name _ => name
  | OutItem.message _ => ""

/-- Rounding of a rational to the nearest integer with ties to even, the
idealised behaviour of Python's built-in round on the exact value. -/
def roundHalfEven (q : ℚ) : ℤ :=
  if Int.fract q = 1/2 then (if ⌊q⌋ % 2 = 0 then ⌊q⌋ else ⌊q⌋ + 1) else round q

/-- Python's round(x, 1): banker's rounding at one decimal place. -/
def round1 (q : ℚ) : ℚ :=
  (roundHalfEven (10 * q) : ℚ) / 10

/-- The branch condition used throughout src/app.py:
"p.type in [&quot;gasfired&quot;, &quot;turbojet&quot;]". -/
def isThermal (p : Powerplant) : Bool :=
  p.type == "gasfired" || p.type == "turbojet"

/-- The efficiency factor attached to a unit: its own stated efficiency for
the two thermal types, the fuel-level wind fraction for everything else.
This is the factor selected by the if/else on lines 120-123 of src/app.py,
and the same factor appears inline in process_input (lines 31-47). -/
def effectiveEfficiency (input : Payload) (powerplant : Powerplant) : ℚ :=
  if isThermal powerplant then powerplant.efficiency
  else input.fuels.windPct / 100

/-- Marginal cost of one powerplant, the body of the loop on lines 52-62 of
src/app.py.  Python raises ZeroDivisionError when a thermal unit has
efficiency exactly 0; there is no other validation. -/
def cost1 (gas_cost co2_cost kerosine_cost : ℚ) (powerplant : Powerplant) : Except PyErr ℚ :=
  if powerplant.type == "gasfired" then
    if powerplant.efficiency = 0 then Except.error PyErr.zeroDivision
    else Except.ok (gas_cost / powerplant.efficiency + 0.3 * co2_cost)
  else if powerplant.type == "turbojet" then
    if powerplant.efficiency = 0 then Except.error PyErr.zeroDivision
    else Except.ok (kerosine_cost / powerplant.efficiency)
  else Except.ok 0

/-- The cost-building loop of process_input (lines 52-62 of src/app.py),
stopping at the first ZeroDivisionError exactly as the Python loop does. -/
def costsOf (gas_cost co2_cost kerosine_cost : ℚ) : List Powerplant → Except PyErr (List ℚ)
  | [] => Except.ok []
  | powerplant :: rest =>
    match cost1 gas_cost co2_cost kerosine_cost powerplant with
    | Except.error e => Except.error e
    | Except.ok c =>
      match costsOf gas_cost co2_cost kerosine_cost rest with
      | Except.error e => Except.error e
      | Except.ok cs => Except.ok (c :: cs)

/-- process_input of src/app.py (lines 8-63): reduced flexible capacities,
marginal costs, reduced load and names.  The only failure is the
ZeroDivisionError raised while building the costs. -/
def process_input (input : Payload) : Except PyErr (List ℚ × List ℚ × ℚ × List String) :=
  let load := input.load
  let wind := input.fuels.windPct / 100
  let powerplants := input.powerplants
  let powers := powerplants.map (fun p =>
    if isThermal p then p.efficiency * (p.pmax - p.pmin)
    else wind * (p.pmax - p.pmin))
  let load := load - (powerplants.map (fun p =>
    if isThermal p then p.efficiency * p.pmin
    else wind * p.pmin)).sum
  let names := powerplants.map (fun p => p.name)
  match costsOf input.fuels.gas input.fuels.co2 input.fuels.kerosine powerplants with
  | Except.error e => Except.error e
  | Except.ok costs => Except.ok (powers, costs, load, names)

/-- A (cost, power, name) triple as zipped in merit_order_optimizer. -/
abbrev Triple : Type := ℚ × ℚ × String

/-- The stable ascending sort by cost on line 83 of src/app.py
(sorted with key=lambda x: x[0]). -/
def sortTriples (l : List Triple) : List Triple :=
  List.insertionSort (fun a b => a.1 ≤ b.1) l

/-- The accumulation loop of merit_order_optimizer (lines 84-95 of
src/app.py), returning the list of (allocated power, name) pairs together
with the final temp_load. -/
def allocLoop (load : ℚ) : List Triple → ℚ → List (ℚ × String) × ℚ
  | [], temp_load => ([], temp_load)
  | (_, power, name) :: rest, temp_load =>
    if temp_load + power < load then
      let r := allocLoop load rest (temp_load + power)
      ((power, name) :: r.1, r.2)
    else if temp_load < load then
      let r := allocLoop load rest load
      ((load - temp_load, name) :: r.1, r.2)
    else
      let r := allocLoop load rest temp_load
      ((0, name) :: r.1, r.2)

/-- merit_order_optimizer of src/app.py (lines 66-98): sort the triples by
ascending cost, fill greedily, and return None when the accumulated load
falls short of the target. -/
def merit_order_optimizer (costs powers : List ℚ) (load : ℚ) (names : List String) :
    Option (List (ℚ × String)) :=
  let costs_powers := sortTriples (costs.zip (powers.zip names))
  let r := allocLoop load costs_powers 0
  if r.2 < load then none else some r.1

/-- The fixed message body returned on infeasibility (line 136 of src/app.py). -/
def infeasibleMessage : String :=
  "The desired load cannot be archived with given set of powerplants"

/-- The body of the output loop of PowerplantSolver.post (lines 115-132 of
src/app.py) for one (reduced power, name) pair: look the unit up by name
(StopIteration if absent), divide by the effective efficiency unless that
would divide by zero (the try/except on lines 127-130 swallows exactly
ZeroDivisionError), add pmin back and round to one decimal. -/
def reexpand (input : Payload) (pn : ℚ × String) : Except PyErr OutItem :=
  match input.powerplants.find? (fun powerpl => powerpl.name == pn.2) with
  | none => Except.error PyErr.stopIteration
  | some powerplant =>
    let p_min := powerplant.pmin
    let efficiency := effectiveEfficiency input powerplant
    let p := if efficiency = 0 then pn.1 else pn.1 / efficiency
    Except.ok (OutItem.entry pn.2 (round1 (p + p_min)))

/-- The output loop of PowerplantSolver.post over all optimal pairs, in
order, stopping at the first raised exception as the Python loop would. -/
def buildOutput (input : Payload) : List (ℚ × String) → Except PyErr (List OutItem)
  | [] => Except.ok []
  | pn :: rest =>
    match reexpand input pn with
    | Except.error e => Except.error e
    | Except.ok item =>
      match buildOutput input rest with
      | Except.error e => Except.error e
      | Except.ok out => Except.ok (item :: out)

/-- PowerplantSolver.post of src/app.py (lines 105-139): process the input,
run the optimizer, and either re-expand every allocated pair or answer the
single-element message body.  Python's "if optimal_powers:" is falsy both
for None and for an empty list. -/
def post (input : Payload) : Except PyErr (List OutItem) :=
  match process_input input with
  | Except.error e => Except.error e
  | Except.ok (powers, costs, load, names) =>
    match merit_order_optimizer costs powers load names with
    | some optimal_powers =>
      if optimal_powers.isEmpty then Except.ok [OutItem.message infeasibleMessage]
      else buildOutput input optimal_powers
    | none => Except.ok [OutItem.message infeasibleMessage]

/-- Closed form of the allocation loop on a cost-sorted triple list with
nonnegative powers: each unit receives its capacity clamped to the load
still missing when its turn comes. -/
def greedyalloc (load : ℚ) : List Triple → ℚ → List (ℚ × String)
  | [], _ => []
  | (_, power, name) :: rest, t0 =>
    (max 0 (min power (load - t0)), name) :: greedyalloc load rest (t0 + power)

/-- Sum of the power components of a triple list. -/
def sumPowers (l : List Triple) : ℚ :=
  (l.map (fun x => x.2.1)).sum

/-- Payload refuting C1: one gasfired unit with efficiency 1/2; the returned
plan misses the requested load by far more than the 0.1 tolerance. -/
def c1Payload : Payload :=
  ⟨8, ⟨0, 10, 0, 0⟩, [⟨"A", "gasfired", 1/2, 0, 20⟩]⟩

/-- Payload refuting C2: a gasfired unit listed before a wind unit; the
response lists the zero-cost wind unit first. -/
def c2Payload : Payload :=
  ⟨8, ⟨0, 10, 100, 0⟩, [⟨"A", "gasfired", 1, 0, 10⟩, ⟨"B", "windturbine", 1, 0, 5⟩]⟩

/-- Payload refuting C3: a unit with pmin 2 greater than pmax 1, which is
processed without any error. -/
def c3Payload : Payload :=
  ⟨0, ⟨0, 10, 0, 0⟩, [⟨"X", "gasfired", 1/2, 2, 1⟩]⟩

/-- Payload with a thermal unit of efficiency 0, the only shape of request
that process_input rejects (with ZeroDivisionError). -/
def c3zPayload : Payload :=
  ⟨5, ⟨0, 10, 0, 0⟩, [⟨"Z", "gasfired", 0, 0, 10⟩]⟩

/-- Payload refuting the rounding clause of C5: the fully loaded wind unit
has pmax 0.56, and its rounded response value 0.6 exceeds pmax. -/
def c5Payload : Payload :=
  ⟨1, ⟨0, 10, 100, 0⟩, [⟨"W", "windturbine", 1, 0, 14/25⟩, ⟨"G", "gasfired", 1, 0, 10⟩]⟩

/-- Payload exercising C9: wind availability 0, so the wind unit has
effective efficiency 0 and is answered at its pmin. -/
def c9Payload : Payload :=
  ⟨4, ⟨0, 10, 0, 0⟩, [⟨"W", "windturbine", 1, 2, 5⟩, ⟨"G", "gasfired", 1, 0, 10⟩]⟩

theorem allocLoop_fst_length (load : ℚ) (l : List Triple) (t0 : ℚ) :
    ((allocLoop load l t0).1).length = l.length := by
  induction l generalizing t0 with
  | nil => rfl
  | cons x rest ih =>
    obtain ⟨c, p, n⟩ := x
    simp only [allocLoop]
    split_ifs <;> simp [ih]

theorem allocLoop_fst_names (load : ℚ) (l : List Triple) (t0 : ℚ) :
    ((allocLoop load l t0).1).map Prod.snd = l.map (fun x => x.2.2) := by
  induction l generalizing t0 with
  | nil => rfl
  | cons x rest ih =>
    obtain ⟨c, p, n⟩ := x
    simp only [allocLoop]
    split_ifs <;> simp [ih]

theorem allocLoop_zero_get (load : ℚ) (l : List Triple) (t0 : ℚ) (i : ℕ)
    (h1 : i < l.length) (h2 : i < ((allocLoop load l t0).1).length)
    (hz : l[i].2.1 = 0) :
    ((allocLoop load l t0).1)[i].1 = 0 := by
  induction l generalizing t0 i with
  | nil => simp at h1
  | cons x rest ih =>
    obtain ⟨c, p, n⟩ := x
    cases i with
    | zero =>
      simp only [List.getElem_cons_zero] at hz
      simp only [allocLoop]
      split_ifs with hb1 hb2
      · simpa using hz
      · rw [hz] at hb1
        simp only [add_zero] at hb1
        exact absurd hb2 (not_lt.mpr (not_lt.mp hb1))
      · simp
    | succ j =>
      simp only [List.getElem_cons_succ] at hz
      have hj : j < rest.length := by simpa using h1
      simp only [allocLoop]
      split_ifs with hb1 hb2
      · simpa using ih (t0 + p) j hj (by simpa [allocLoop_fst_length] using hj) hz
      · simpa using ih load j hj (by simpa [allocLoop_fst_length] using hj) hz
      · simpa using ih t0 j hj (by simpa [allocLoop_fst_length] using hj) hz

theorem allocLoop_mem (load : ℚ) (l : List Triple) (t0 : ℚ) :
    ∀ y ∈ (allocLoop load l t0).1, ∃ x ∈ l, y.2 = x.2.2 ∧ (x.2.1 = 0 → y.1 = 0) := by
  induction l generalizing t0 with
  | nil => simp [allocLoop]
  | cons x rest ih =>
    obtain ⟨c, p, n⟩ := x
    simp only [allocLoop]
    split_ifs with hb1 hb2 <;> intro y hy <;> rcases List.mem_cons.mp hy with h | h
    · subst h
      exact ⟨(c, p, n), List.mem_cons_self _ _, rfl, fun hp => hp⟩
    · obtain ⟨x, hx, hxx⟩ := ih (t0 + p) y h
      exact ⟨x, List.mem_cons_of_mem _ hx, hxx⟩
    · subst h
      refine ⟨(c, p, n), List.mem_cons_self _ _, rfl, fun hp => ?_⟩
      have hp2 : p = 0 := hp
      rw [hp2, add_zero] at hb1
      exact absurd hb2 (not_lt.mpr (not_lt.mp hb1))
    · obtain ⟨x, hx, hxx⟩ := ih load y h
      exact ⟨x, List.mem_cons_of_mem _ hx, hxx⟩
    · subst h
      exact ⟨(c, p, n), List.mem_cons_self _ _, rfl, fun _ => rfl⟩
    · obtain ⟨x, hx, hxx⟩ := ih t0 y h
      exact ⟨x, List.mem_cons_of_mem _ hx, hxx⟩

theorem greedyalloc_length (load : ℚ) (l : List Triple) (t0 : ℚ) :
    (greedyalloc load l t0).length = l.length := by
  induction l generalizing t0 with
  | nil => rfl
  | cons x rest ih =>
    obtain ⟨c, p, n⟩ := x
    simp [greedyalloc, ih]

theorem greedyalloc_zeros (load : ℚ) (l : List Triple) (t0 : ℚ)
    (hnn : ∀ x ∈ l, 0 ≤ x.2.1) (ht : load ≤ t0) :
    greedyalloc load l t0 = l.map (fun x => ((0 : ℚ), x.2.2)) := by
  induction l generalizing t0 with
  | nil => rfl
  | cons x rest ih =>
    obtain ⟨c, p, n⟩ := x
    have hp : (0 : ℚ) ≤ p := hnn (c, p, n) (List.mem_cons_self _ _)
    have h0 : max 0 (min p (load - t0)) = 0 :=
      max_eq_left (le_trans (min_le_right _ _) (by linarith))
    simp only [greedyalloc, List.map_cons]
    rw [h0, ih (t0 + p) (fun x hx => hnn x (List.mem_cons_of_mem _ hx)) (by linarith)]

theorem sumPowers_nonneg (l : List Triple) (hnn : ∀ x ∈ l, 0 ≤ x.2.1) :
    0 ≤ sumPowers l := by
  unfold sumPowers
  apply List.sum_nonneg
  intro q hq
  obtain ⟨x, hx, rfl⟩ := List.mem_map.mp hq
  exact hnn x hx

theorem allocLoop_fst_eq_greedy (load : ℚ) (l : List Triple) (t0 : ℚ)
    (hnn : ∀ x ∈ l, 0 ≤ x.2.1) :
    (allocLoop load l t0).1 = greedyalloc load l t0 := by
  induction l generalizing t0 with
  | nil => rfl
  | cons x rest ih =>
    obtain ⟨c, p, n⟩ := x
    have hp : (0 : ℚ) ≤ p := hnn (c, p, n) (List.mem_cons_self _ _)
    have hnr : ∀ x ∈ rest, 0 ≤ x.2.1 := fun x hx => hnn x (List.mem_cons_of_mem _ hx)
    simp only [allocLoop, greedyalloc]
    split_ifs with hb1 hb2
    · rw [ih (t0 + p) hnr]
      have hmin : min p (load - t0) = p := min_eq_left (by linarith)
      simp [hmin, max_eq_right hp]
    · have h1 : (allocLoop load rest load).1 = greedyalloc load rest load := ih load hnr
      have h2 : greedyalloc load rest load = rest.map (fun x => ((0 : ℚ), x.2.2)) :=
        greedyalloc_zeros load rest load hnr le_rfl
      have h3 : greedyalloc load rest (t0 + p) = rest.map (fun x => ((0 : ℚ), x.2.2)) :=
        greedyalloc_zeros load rest (t0 + p) hnr (by linarith [not_lt.mp hb1])
      have hmin : min p (load - t0) = load - t0 := min_eq_right (by linarith [not_lt.mp hb1])
      have hmax : max 0 (load - t0) = load - t0 := max_eq_right (by linarith)
      simp [h1, h2, h3, hmin, hmax]
    · have hle : load ≤ t0 := not_lt.mp hb2
      have h1 : (allocLoop load rest t0).1 = greedyalloc load rest t0 := ih t0 hnr
      have h2 : greedyalloc load rest t0 = rest.map (fun x => ((0 : ℚ), x.2.2)) :=
        greedyalloc_zeros load rest t0 hnr hle
      have h3 : greedyalloc load rest (t0 + p) = rest.map (fun x => ((0 : ℚ), x.2.2)) :=
        greedyalloc_zeros load rest (t0 + p) hnr (by linarith)
      have hmax : max 0 (min p (load - t0)) = 0 :=
        max_eq_left (le_trans (min_le_right _ _) (by linarith))
      simp [h1, h2, h3, hmax]

theorem allocLoop_snd_eq (load : ℚ) (l : List Triple) (t0 : ℚ)
    (hnn : ∀ x ∈ l, 0 ≤ x.2.1) :
    (allocLoop load l t0).2 = max t0 (min load (t0 + sumPowers l)) := by
  induction l generalizing t0 with
  | nil =>
    simp only [allocLoop, sumPowers, List.map_nil, List.sum_nil, add_zero]
    exact (max_eq_left (min_le_right _ _)).symm
  | cons x rest ih =>
    obtain ⟨c, p, n⟩ := x
    have hp : (0 : ℚ) ≤ p := hnn (c, p, n) (List.mem_cons_self _ _)
    have hnr : ∀ x ∈ rest, 0 ≤ x.2.1 := fun x hx => hnn x (List.mem_cons_of_mem _ hx)
    have hsr : 0 ≤ sumPowers rest := sumPowers_nonneg rest hnr
    have hsum : sumPowers ((c, p, n) :: rest) = p + sumPowers rest := by
      simp [sumPowers]
    have hassoc : t0 + (p + sumPowers rest) = t0 + p + sumPowers rest := by ring
    simp only [allocLoop]
    split_ifs with hb1 hb2
    · rw [ih (t0 + p) hnr, hsum, hassoc]
      have hm : t0 + p ≤ min load (t0 + p + sumPowers rest) := le_min (by linarith) (by linarith)
      rw [max_eq_right hm, max_eq_right (le_trans (by linarith) hm)]
    · rw [ih load hnr, hsum, hassoc]
      rw [max_eq_left (min_le_left _ _)]
      have h1 : load ≤ t0 + p + sumPowers rest := by linarith [not_lt.mp hb1]
      rw [min_eq_left h1, max_eq_right (le_of_lt hb2)]
    · have hle : load ≤ t0 := not_lt.mp hb2
      rw [ih t0 hnr, hsum, hassoc]
      rw [max_eq_left (le_trans (min_le_left _ _) hle),
        max_eq_left (le_trans (min_le_left _ _) hle)]

theorem greedyalloc_mem (load : ℚ) (l : List Triple) (t0 : ℚ) :
    ∀ y ∈ greedyalloc load l t0,
      0 ≤ y.1 ∧ ∃ x ∈ l, y.2 = x.2.2 ∧ (0 ≤ x.2.1 → y.1 ≤ x.2.1) := by
  induction l generalizing t0 with
  | nil => simp [greedyalloc]
  | cons x rest ih =>
    obtain ⟨c, p, n⟩ := x
    intro y hy
    simp only [greedyalloc] at hy
    rcases List.mem_cons.mp hy with h | h
    · subst h
      refine ⟨le_max_left _ _, (c, p, n), List.mem_cons_self _ _, rfl, fun hp => ?_⟩
      exact max_le hp (min_le_left _ _)
    · obtain ⟨h0, x, hx, hxx⟩ := ih (t0 + p) y h
      exact ⟨h0, x, List.mem_cons_of_mem _ hx, hxx⟩

theorem greedyalloc_mono (l : List Triple) (load1 load2 t0 : ℚ) (hle : load1 ≤ load2) (i : ℕ)
    (h1 : i < (greedyalloc load1 l t0).length) (h2 : i < (greedyalloc load2 l t0).length) :
    (greedyalloc load1 l t0)[i].1 ≤ (greedyalloc load2 l t0)[i].1 ∧
      (greedyalloc load1 l t0)[i].2 = (greedyalloc load2 l t0)[i].2 := by
  induction l generalizing t0 i with
  | nil => simp [greedyalloc] at h1
  | cons x rest ih =>
    obtain ⟨c, p, n⟩ := x
    cases i with
    | zero =>
      simp only [greedyalloc, List.getElem_cons_zero]
      exact ⟨max_le_max le_rfl (min_le_min le_rfl (by linarith)), by trivial⟩
    | succ j =>
      have hj : j < rest.length := by
        have h3 := h1
        simp only [greedyalloc, List.length_cons, greedyalloc_length] at h3
        omega
      simp only [greedyalloc, List.getElem_cons_succ]
      exact ih (t0 + p) j (by rw [greedyalloc_length]; exact hj)
        (by rw [greedyalloc_length]; exact hj)

theorem sortTriples_nonneg {l : List Triple} (hnn : ∀ x ∈ l, 0 ≤ x.2.1) :
    ∀ x ∈ sortTriples l, 0 ≤ x.2.1 :=
  fun x hx => hnn x ((List.perm_insertionSort _ l).mem_iff.mp hx)

theorem sumPowers_sortTriples (l : List Triple) : sumPowers (sortTriples l) = sumPowers l := by
  unfold sumPowers
  exact ((List.perm_insertionSort _ l).map _).sum_eq

theorem merit_some_out {costs powers : List ℚ} {load : ℚ} {names : List String}
    {out : List (ℚ × String)}
    (h : merit_order_optimizer costs powers load names = some out) :
    out = (allocLoop load (sortTriples (costs.zip (powers.zip names))) 0).1 := by
  unfold merit_order_optimizer at h
  dsimp only at h
  split_ifs at h with hc
  exact (Option.some.inj h).symm

theorem merit_none_iff (costs powers : List ℚ) (load : ℚ) (names : List String)
    (hnn : ∀ x ∈ costs.zip (powers.zip names), 0 ≤ x.2.1) :
    merit_order_optimizer costs powers load names = none ↔
      sumPowers (costs.zip (powers.zip names)) < load := by
  have hs : ∀ x ∈ sortTriples (costs.zip (powers.zip names)), 0 ≤ x.2.1 :=
    sortTriples_nonneg hnn
  have h0 : 0 ≤ sumPowers (costs.zip (powers.zip names)) :=
    sumPowers_nonneg _ hnn
  unfold merit_order_optimizer
  dsimp only
  rw [allocLoop_snd_eq load _ 0 hs, sumPowers_sortTriples, zero_add]
  split_ifs with h
  · simp only [true_iff]
    have h1 : min load (sumPowers (costs.zip (powers.zip names))) < load :=
      lt_of_le_of_lt (le_max_right 0 _) h
    rcases min_lt_iff.mp h1 with h2 | h2
    · exact absurd h2 (lt_irrefl _)
    · simp [h2]
  · constructor
    · intro hcon
      exact absurd hcon (by simp)
    · intro hS
      exfalso
      apply h
      rw [min_eq_right (le_of_lt hS), max_eq_right h0]
      exact hS

theorem zip3_map_power (costs powers : List ℚ) (names : List String)
    (h1 : costs.length = powers.length) (h2 : powers.length = names.length) :
    (costs.zip (powers.zip names)).map (fun x => x.2.1) = powers := by
  induction costs generalizing powers names with
  | nil =>
    cases powers with
    | nil => rfl
    | cons p ps => simp at h1
  | cons c cs ih =>
    cases powers with
    | nil => simp at h1
    | cons p ps =>
      cases names with
      | nil => simp at h2
      | cons n ns =>
        simp only [List.zip_cons_cons, List.map_cons]
        rw [ih ps ns (by simpa using h1) (by simpa using h2)]

theorem zip3_map_name (costs powers : List ℚ) (names : List String)
    (h1 : costs.length = powers.length) (h2 : powers.length = names.length) :
    (costs.zip (powers.zip names)).map (fun x => x.2.2) = names := by
  induction costs generalizing powers names with
  | nil =>
    cases powers with
    | nil =>
      cases names with
      | nil => rfl
      | cons n ns => simp at h2
    | cons p ps => simp at h1
  | cons c cs ih =>
    cases powers with
    | nil => simp at h1
    | cons p ps =>
      cases names with
      | nil => simp at h2
      | cons n ns =>
        simp only [List.zip_cons_cons, List.map_cons]
        rw [ih ps ns (by simpa using h1) (by simpa using h2)]

theorem mem_zip3 {x : Triple} {costs powers : List ℚ} {names : List String}
    (h : x ∈ costs.zip (powers.zip names)) :
    ∃ j, ∃ hc : j < costs.length, ∃ hp : j < powers.length, ∃ hn : j < names.length,
      x = (costs[j], powers[j], names[j]) := by
  obtain ⟨j, hj, hx⟩ := List.mem_iff_getElem.mp h
  have hc : j < costs.length := by
    have := hj
    simp only [List.length_zip] at this
    omega
  have hp : j < powers.length := by
    have := hj
    simp only [List.length_zip] at this
    omega
  have hn : j < names.length := by
    have := hj
    simp only [List.length_zip] at this
    omega
  refine ⟨j, hc, hp, hn, ?_⟩
  rw [← hx]
  simp [List.getElem_zip]

theorem find?_name_of_nodup (l : List Powerplant)
    (hnd : (l.map (fun p => p.name)).Nodup) (pp : Powerplant) (hpp : pp ∈ l) :
    l.find? (fun q => q.name == pp.name) = some pp := by
  induction l with
  | nil => simp at hpp
  | cons a rest ih =>
    by_cases h : (a.name == pp.name) = true
    · have hae : a.name = pp.name := by simpa using h
      rcases List.mem_cons.mp hpp with he | he
      · rw [he] at h ⊢
        simp [List.find?_cons_of_pos, h]
      · exfalso
        have : pp.name ∈ rest.map (fun p => p.name) := List.mem_map_of_mem _ he
        rw [← hae] at this
        exact (List.nodup_cons.mp hnd).1 this
    · have hne : pp ∈ rest := by
        rcases List.mem_cons.mp hpp with he | he
        · exfalso
          apply h
          rw [he]
          simp
        · exact he
      rw [List.find?_cons_of_neg _ (by simpa using h)]
      exact ih (List.nodup_cons.mp hnd).2 hne

theorem reexpand_ok_name {input : Payload} {pn : ℚ × String} {item : OutItem}
    (h : reexpand input pn = Except.ok item) : outName item = pn.2 := by
  unfold reexpand at h
  cases hf : input.powerplants.find? (fun powerpl => powerpl.name == pn.2) with
  | none => rw [hf] at h; exact absurd h (by simp)
  | some pp =>
    rw [hf] at h
    dsimp only at h
    have := Except.ok.inj h
    rw [← this]
    rfl

theorem buildOutput_ok_mem {input : Payload} {l : List (ℚ × String)} {out : List OutItem}
    (h : buildOutput input l = Except.ok out) :
    ∀ y ∈ out, ∃ pn ∈ l, reexpand input pn = Except.ok y := by
  induction l generalizing out with
  | nil =>
    have : out = [] := by
      unfold buildOutput at h
      exact (Except.ok.inj h).symm
    subst this
    simp
  | cons pn rest ih =>
    unfold buildOutput at h
    cases hre : reexpand input pn with
    | error e => rw [hre] at h; exact absurd h (by simp)
    | ok item =>
      rw [hre] at h
      cases hbo : buildOutput input rest with
      | error e => rw [hbo] at h; exact absurd h (by simp)
      | ok outr =>
        rw [hbo] at h
        have : item :: outr = out := Except.ok.inj h
        subst this
        intro y hy
        rcases List.mem_cons.mp hy with he | he
        · exact ⟨pn, List.mem_cons_self _ _, he ▸ hre⟩
        · obtain ⟨pn2, hpn2, hr2⟩ := ih hbo y he
          exact ⟨pn2, List.mem_cons_of_mem _ hpn2, hr2⟩

theorem buildOutput_ok_names {input : Payload} {l : List (ℚ × String)} {out : List OutItem}
    (h : buildOutput input l = Except.ok out) :
    out.map outName = l.map Prod.snd := by
  induction l generalizing out with
  | nil =>
    have : out = [] := by
      unfold buildOutput at h
      exact (Except.ok.inj h).symm
    subst this
    rfl
  | cons pn rest ih =>
    unfold buildOutput at h
    cases hre : reexpand input pn with
    | error e => rw [hre] at h; exact absurd h (by simp)
    | ok item =>
      rw [hre] at h
      cases hbo : buildOutput input rest with
      | error e => rw [hbo] at h; exact absurd h (by simp)
      | ok outr =>
        rw [hbo] at h
        have : item :: outr = out := Except.ok.inj h
        subst this
        simp only [List.map_cons]
        rw [reexpand_ok_name hre, ih hbo]

theorem cost1_error_iff (gas_cost co2_cost kerosine_cost : ℚ) (p : Powerplant) (e : PyErr) :
    cost1 gas_cost co2_cost kerosine_cost p = Except.error e ↔
      e = PyErr.zeroDivision ∧ isThermal p = true ∧ p.efficiency = 0 := by
  unfold cost1
  constructor
  · intro h
    split_ifs at h with h1 h2 h3 h4 <;>
      first
        | exact Except.noConfusion h
        | exact ⟨(Except.error.inj h).symm, by simp [isThermal, h1], h2⟩
        | exact ⟨(Except.error.inj h).symm, by simp [isThermal, h3], h4⟩
  · rintro ⟨he, hth, heff⟩
    subst he
    have hor : (p.type == "gasfired") = true ∨ (p.type == "turbojet") = true := by
      simpa [isThermal] using hth
    rcases hor with h | h
    · rw [if_pos h, if_pos heff]
    · by_cases hg : (p.type == "gasfired") = true
      · rw [if_pos hg, if_pos heff]
      · rw [if_neg hg, if_pos h, if_pos heff]

theorem costsOf_ok_length {gas_cost co2_cost kerosine_cost : ℚ} {l : List Powerplant}
    {cs : List ℚ} (h : costsOf gas_cost co2_cost kerosine_cost l = Except.ok cs) :
    cs.length = l.length := by
  induction l generalizing cs with
  | nil =>
    have : [] = cs := Except.ok.inj h
    rw [← this]
    rfl
  | cons p rest ih =>
    unfold costsOf at h
    cases hc : cost1 gas_cost co2_cost kerosine_cost p with
    | error e => rw [hc] at h; exact absurd h (by simp)
    | ok c =>
      rw [hc] at h
      cases hr : costsOf gas_cost co2_cost kerosine_cost rest with
      | error e => rw [hr] at h; exact absurd h (by simp)
      | ok cs2 =>
        rw [hr] at h
        have : c :: cs2 = cs := Except.ok.inj h
        rw [← this]
        simp [ih hr]

theorem costsOf_error_iff (gas_cost co2_cost kerosine_cost : ℚ) (l : List Powerplant) :
    ∀ e, costsOf gas_cost co2_cost kerosine_cost l = Except.error e ↔
      e = PyErr.zeroDivision ∧ ∃ p ∈ l, isThermal p = true ∧ p.efficiency = 0 := by
  induction l with
  | nil =>
    intro e
    simp [costsOf]
  | cons p rest ih =>
    intro e
    unfold costsOf
    cases hc : cost1 gas_cost co2_cost kerosine_cost p with
    | error e2 =>
      obtain ⟨he2, hth, heff⟩ := (cost1_error_iff _ _ _ _ _).mp hc
      subst he2
      constructor
      · intro he
        exact ⟨(Except.error.inj he).symm, p, List.mem_cons_self _ _, hth, heff⟩
      · rintro ⟨he, -⟩
        subst he
        rfl
    | ok c =>
      cases hr : costsOf gas_cost co2_cost kerosine_cost rest with
      | error e2 =>
        obtain ⟨he2, hex⟩ := (ih e2).mp hr
        subst he2
        constructor
        · intro he
          obtain ⟨q, hq, hqq⟩ := hex
          exact ⟨(Except.error.inj he).symm, q, List.mem_cons_of_mem _ hq, hqq⟩
        · rintro ⟨he, -⟩
          subst he
          rfl
      | ok cs =>
        constructor
        · intro he
          exact absurd he (by simp)
        · rintro ⟨he, q, hq, hth, heff⟩
          exfalso
          rcases List.mem_cons.mp hq with hqe | hqe
          · subst hqe
            rw [(cost1_error_iff _ _ _ q PyErr.zeroDivision).mpr ⟨rfl, hth, heff⟩] at hc
            exact absurd hc (by simp)
          · rw [(ih PyErr.zeroDivision).mpr ⟨rfl, q, hqe, hth, heff⟩] at hr
            exact absurd hr (by simp)

theorem process_input_ok_parts {input : Payload} {pw cs : List ℚ} {ld : ℚ} {ns : List String}
    (h : process_input input = Except.ok (pw, cs, ld, ns)) :
    costsOf input.fuels.gas input.fuels.co2 input.fuels.kerosine input.powerplants =
        Except.ok cs ∧
      pw = input.powerplants.map (fun p =>
        if isThermal p then p.efficiency * (p.pmax - p.pmin)
        else (input.fuels.windPct / 100) * (p.pmax - p.pmin)) ∧
      ld = input.load - (input.powerplants.map (fun p =>
        if isThermal p then p.efficiency * p.pmin
        else (input.fuels.windPct / 100) * p.pmin)).sum ∧
      ns = input.powerplants.map (fun p => p.name) := by
  unfold process_input at h
  dsimp only at h
  cases hc : costsOf input.fuels.gas input.fuels.co2 input.fuels.kerosine input.powerplants with
  | error e =>
    rw [hc] at h
    exact absurd h (by simp)
  | ok cs2 =>
    rw [hc] at h
    simp only [Except.ok.injEq, Prod.mk.injEq] at h
    obtain ⟨hpw, hcs, hld, hns⟩ := h
    exact ⟨congrArg Except.ok hcs, hpw.symm, hld.symm, hns.symm⟩

theorem process_input_error_iff (input : Payload) (e : PyErr) :
    process_input input = Except.error e ↔
      e = PyErr.zeroDivision ∧
        ∃ p ∈ input.powerplants, isThermal p = true ∧ p.efficiency = 0 := by
  unfold process_input
  dsimp only
  cases hc : costsOf input.fuels.gas input.fuels.co2 input.fuels.kerosine input.powerplants with
  | error e2 =>
    constructor
    · intro h
      have he : e2 = e := Except.error.inj h
      subst he
      exact (costsOf_error_iff _ _ _ _ e2).mp hc
    · rintro ⟨he, hex⟩
      subst he
      have h2 := (costsOf_error_iff input.fuels.gas input.fuels.co2 input.fuels.kerosine
        input.powerplants PyErr.zeroDivision).mpr ⟨rfl, hex⟩
      rw [h2] at hc
      rw [Except.error.inj hc]
  | ok cs =>
    constructor
    · intro h
      exact absurd h (by simp)
    · rintro ⟨he, hex⟩
      subst he
      have h2 := (costsOf_error_iff input.fuels.gas input.fuels.co2 input.fuels.kerosine
        input.powerplants PyErr.zeroDivision).mpr ⟨rfl, hex⟩
      rw [h2] at hc
      exact absurd hc (by simp)

theorem power_eq_effEff (input : Payload) (p : Powerplant) :
    (if isThermal p then p.efficiency * (p.pmax - p.pmin)
      else (input.fuels.windPct / 100) * (p.pmax - p.pmin)) =
      effectiveEfficiency input p * (p.pmax - p.pmin) := by
  unfold effectiveEfficiency
  split_ifs <;> rfl

theorem effectiveEfficiency_nonneg (input : Payload) (p : Powerplant)
    (hth : isThermal p = true → 0 < p.efficiency) (hw : 0 ≤ input.fuels.windPct) :
    0 ≤ effectiveEfficiency input p := by
  unfold effectiveEfficiency
  split_ifs with h
  · exact le_of_lt (hth h)
  · exact div_nonneg hw (by norm_num)

theorem powers_nonneg (input : Payload)
    (hval1 : ∀ p ∈ input.powerplants, isThermal p = true → 0 < p.efficiency)
    (hval2 : ∀ p ∈ input.powerplants, p.pmin ≤ p.pmax)
    (hw : 0 ≤ input.fuels.windPct) :
    ∀ x ∈ input.powerplants.map (fun p =>
      if isThermal p then p.efficiency * (p.pmax - p.pmin)
      else (input.fuels.windPct / 100) * (p.pmax - p.pmin)), 0 ≤ x := by
  intro x hx
  obtain ⟨p, hp, rfl⟩ := List.mem_map.mp hx
  rw [power_eq_effEff]
  apply mul_nonneg (effectiveEfficiency_nonneg input p (hval1 p hp) hw)
  linarith [hval2 p hp]

theorem abs_roundHalfEven_sub (q : ℚ) : |(roundHalfEven q : ℚ) - q| ≤ 1/2 := by
  unfold roundHalfEven
  split_ifs with h1 h2
  · have hf : (⌊q⌋ : ℚ) - q = -(Int.fract q) := by
      unfold Int.fract
      ring
    rw [hf, h1, abs_le]
    constructor <;> norm_num
  · have hf : ((⌊q⌋ + 1 : ℤ) : ℚ) - q = 1 - Int.fract q := by
      push_cast
      unfold Int.fract
      ring
    rw [hf, h1, abs_le]
    constructor <;> norm_num
  · have h := abs_sub_round q
    rw [abs_sub_comm] at h
    exact h

theorem abs_round1_sub (q : ℚ) : |round1 q - q| ≤ 1/20 := by
  unfold round1
  have h := abs_roundHalfEven_sub (10 * q)
  have heq : (roundHalfEven (10 * q) : ℚ) / 10 - q = ((roundHalfEven (10 * q) : ℚ) - 10 * q) / 10 := by
    ring
  rw [heq, abs_div]
  have h10 : |(10 : ℚ)| = 10 := by norm_num
  rw [h10]
  rw [div_le_iff₀ (by norm_num : (0:ℚ) < 10)]
  linarith

theorem mem_zip3_power {x : Triple} {costs powers : List ℚ} {names : List String}
    (h : x ∈ costs.zip (powers.zip names)) : x.2.1 ∈ powers := by
  obtain ⟨j, hc, hp, hn, rfl⟩ := mem_zip3 h
  exact List.getElem_mem _

theorem post_ok_entry {input : Payload} {out : List OutItem} {name : String} {p : ℚ}
    (hpost : post input = Except.ok out) (hmem : OutItem.entry name p ∈ out) :
    ∃ pw cs ld ns l, process_input input = Except.ok (pw, cs, ld, ns) ∧
      merit_order_optimizer cs pw ld ns = some l ∧
      ∃ pn ∈ l, pn.2 = name ∧ reexpand input pn = Except.ok (OutItem.entry name p) := by
  unfold post at hpost
  cases hpi : process_input input with
  | error e =>
    rw [hpi] at hpost
    exact absurd hpost (by simp)
  | ok quad =>
    obtain ⟨pw, cs, ld, ns⟩ := quad
    rw [hpi] at hpost
    dsimp only at hpost
    cases hopt : merit_order_optimizer cs pw ld ns with
    | none =>
      rw [hopt] at hpost
      dsimp only at hpost
      have hout : out = [OutItem.message infeasibleMessage] := (Except.ok.inj hpost).symm
      subst hout
      simp at hmem
    | some l =>
      rw [hopt] at hpost
      dsimp only at hpost
      by_cases hemp : l.isEmpty = true
      · rw [if_pos hemp] at hpost
        have hout : out = [OutItem.message infeasibleMessage] := (Except.ok.inj hpost).symm
        subst hout
        simp at hmem
      · rw [if_neg hemp] at hpost
        obtain ⟨pn, hpn, hre⟩ := buildOutput_ok_mem hpost _ hmem
        refine ⟨pw, cs, ld, ns, l, rfl, hopt, pn, hpn, ?_, hre⟩
        exact (reexpand_ok_name hre).symm

theorem optimizer_entry_unit {input : Payload} {pw cs : List ℚ} {ld : ℚ} {ns : List String}
    {l : List (ℚ × String)}
    (hpi : process_input input = Except.ok (pw, cs, ld, ns))
    (hopt : merit_order_optimizer cs pw ld ns = some l)
    (hnn : ∀ x ∈ pw, 0 ≤ x)
    {pn : ℚ × String} (hpn : pn ∈ l) :
    ∃ pp, pp ∈ input.powerplants ∧ pp.name = pn.2 ∧ 0 ≤ pn.1 ∧
      pn.1 ≤ effectiveEfficiency input pp * (pp.pmax - pp.pmin) := by
  obtain ⟨hcs, hpw, hld, hns⟩ := process_input_ok_parts hpi
  have hnz : ∀ x ∈ cs.zip (pw.zip ns), 0 ≤ x.2.1 :=
    fun x hx => hnn _ (mem_zip3_power hx)
  have hns2 : ∀ x ∈ sortTriples (cs.zip (pw.zip ns)), 0 ≤ x.2.1 := sortTriples_nonneg hnz
  have hl : l = greedyalloc ld (sortTriples (cs.zip (pw.zip ns))) 0 := by
    rw [merit_some_out hopt]
    exact allocLoop_fst_eq_greedy ld _ 0 hns2
  rw [hl] at hpn
  obtain ⟨h0, tr, htr, hname, hbound⟩ := greedyalloc_mem ld _ 0 pn hpn
  have htr2 : tr ∈ cs.zip (pw.zip ns) :=
    (List.perm_insertionSort _ _).mem_iff.mp htr
  obtain ⟨j, hjc, hjp, hjn, htreq⟩ := mem_zip3 htr2
  have hplen : j < input.powerplants.length := by
    rw [hpw] at hjp
    simpa using hjp
  have hpj : pw[j] = effectiveEfficiency input input.powerplants[j] *
      (input.powerplants[j].pmax - input.powerplants[j].pmin) := by
    simp only [hpw, List.getElem_map]
    exact power_eq_effEff input _
  have hnj : ns[j] = input.powerplants[j].name := by
    simp only [hns, List.getElem_map]
  refine ⟨input.powerplants[j], List.getElem_mem _, ?_, h0, ?_⟩
  · rw [← hnj, hname, htreq]
  · have hcap : 0 ≤ tr.2.1 := by
      rw [htreq]
      exact hnn _ (List.getElem_mem _)
    have hb := hbound hcap
    rw [htreq] at hb
    dsimp only at hb
    rw [hpj] at hb
    exact hb

theorem optimizer_entry_unit_zero {input : Payload} {pw cs : List ℚ} {ld : ℚ}
    {ns : List String} {l : List (ℚ × String)}
    (hpi : process_input input = Except.ok (pw, cs, ld, ns))
    (hopt : merit_order_optimizer cs pw ld ns = some l)
    {pn : ℚ × String} (hpn : pn ∈ l) :
    ∃ pp, pp ∈ input.powerplants ∧ pp.name = pn.2 ∧
      (effectiveEfficiency input pp * (pp.pmax - pp.pmin) = 0 → pn.1 = 0) := by
  obtain ⟨hcs, hpw, hld, hns⟩ := process_input_ok_parts hpi
  have hl : l = (allocLoop ld (sortTriples (cs.zip (pw.zip ns))) 0).1 := merit_some_out hopt
  rw [hl] at hpn
  obtain ⟨tr, htr, hname, hzero⟩ := allocLoop_mem ld _ 0 pn hpn
  have htr2 : tr ∈ cs.zip (pw.zip ns) :=
    (List.perm_insertionSort _ _).mem_iff.mp htr
  obtain ⟨j, hjc, hjp, hjn, htreq⟩ := mem_zip3 htr2
  have hplen : j < input.powerplants.length := by
    rw [hpw] at hjp
    simpa using hjp
  have hpj : pw[j] = effectiveEfficiency input input.powerplants[j] *
      (input.powerplants[j].pmax - input.powerplants[j].pmin) := by
    simp only [hpw, List.getElem_map]
    exact power_eq_effEff input _
  have hnj : ns[j] = input.powerplants[j].name := by
    simp only [hns, List.getElem_map]
  refine ⟨input.powerplants[j], List.getElem_mem _, ?_, ?_⟩
  · rw [← hnj, hname, htreq]
  · intro hcap
    apply hzero
    rw [htreq]
    dsimp only
    rw [hpj]
    exact hcap

theorem reexpand_eval {input : Payload} {pn : ℚ × String} {pp : Powerplant}
    (hnd : (input.powerplants.map (fun p => p.name)).Nodup)
    (hpp : pp ∈ input.powerplants) (hname : pp.name = pn.2) :
    reexpand input pn = Except.ok (OutItem.entry pn.2 (round1
      ((if effectiveEfficiency input pp = 0 then pn.1
        else pn.1 / effectiveEfficiency input pp) + pp.pmin))) := by
  unfold reexpand
  have hf : input.powerplants.find? (fun q => q.name == pn.2) = some pp := by
    rw [← hname]
    exact find?_name_of_nodup _ hnd pp hpp
  rw [hf]

instance : IsTotal Triple (fun a b : Triple => a.1 ≤ b.1) :=
  ⟨fun a b => le_total a.1 b.1⟩

instance : IsTrans Triple (fun a b : Triple => a.1 ≤ b.1) :=
  ⟨fun _ _ _ hab hbc => le_trans hab hbc⟩

theorem sortTriples_sorted (l : List Triple) :
    List.Sorted (fun a b : Triple => a.1 ≤ b.1) (sortTriples l) :=
  List.sorted_insertionSort _ l

/-- C2 (amended): for a feasible request the response has exactly one entry
per input unit (its names are a permutation of the input names), but the
entries appear in the ascending-marginal-cost order produced by the stable
sort, not in the order of the input powerplants array. -/
theorem c2_sorted_order (input : Payload) (pw cs : List ℚ) (ld : ℚ) (ns : List String)
    (l : List (ℚ × String)) (out : List OutItem)
    (hpi : process_input input = Except.ok (pw, cs, ld, ns))
    (hopt : merit_order_optimizer cs pw ld ns = some l)
    (hne : l ≠ [])
    (hpost : post input = Except.ok out) :
    out.map outName = (sortTriples (cs.zip (pw.zip ns))).map (fun x => x.2.2) ∧
      (out.map outName).Perm (input.powerplants.map (fun p => p.name)) ∧
      List.Sorted (fun a b : Triple => a.1 ≤ b.1) (sortTriples (cs.zip (pw.zip ns))) := by
  have hb : buildOutput input l = Except.ok out := by
    unfold post at hpost
    rw [hpi] at hpost
    dsimp only at hpost
    rw [hopt] at hpost
    dsimp only at hpost
    rw [if_neg (by simpa using hne)] at hpost
    exact hpost
  obtain ⟨hcs, hpw, hld, hns⟩ := process_input_ok_parts hpi
  have h1 : out.map outName = l.map Prod.snd := buildOutput_ok_names hb
  have h2 : l = (allocLoop ld (sortTriples (cs.zip (pw.zip ns))) 0).1 := merit_some_out hopt
  have h3 : l.map Prod.snd = (sortTriples (cs.zip (pw.zip ns))).map (fun x => x.2.2) := by
    rw [h2]
    exact allocLoop_fst_names ld _ 0
  refine ⟨by rw [h1, h3], ?_, sortTriples_sorted _⟩
  rw [h1, h3]
  have hperm : ((sortTriples (cs.zip (pw.zip ns))).map (fun x => x.2.2)).Perm
      ((cs.zip (pw.zip ns)).map (fun x => x.2.2)) :=
    (List.perm_insertionSort _ _).map _
  have hzip : (cs.zip (pw.zip ns)).map (fun x => x.2.2) = ns := by
    apply zip3_map_name
    · rw [costsOf_ok_length hcs, hpw]
      simp
    · rw [hpw, hns]
      simp
  rw [hzip] at hperm
  rw [← hns]
  exact hperm

/-- C3 (amended): there is no InvalidUnitSpec validation.  Request processing
fails if and only if some thermal unit has efficiency exactly 0, and the
failure is the unhandled ZeroDivisionError from the cost computation, raised
before the allocator runs and propagated unchanged by the handler; negative
efficiencies and minimum greater than maximum are not rejected. -/
theorem c3_thermal_zero_only (input : Payload) :
    (process_input input = Except.error PyErr.zeroDivision ↔
      ∃ p ∈ input.powerplants, isThermal p = true ∧ p.efficiency = 0) ∧
    ∀ e, process_input input = Except.error e →
      e = PyErr.zeroDivision ∧ post input = Except.error e := by
  constructor
  · constructor
    · intro h
      exact ((process_input_error_iff input PyErr.zeroDivision).mp h).2
    · intro hex
      exact (process_input_error_iff input PyErr.zeroDivision).mpr ⟨rfl, hex⟩
  · intro e he
    refine ⟨((process_input_error_iff input e).mp he).1, ?_⟩
    unfold post
    rw [he]

/-- C4 (amended): with nonnegative flexible capacities, a reduced load
strictly above the sum of all capacities makes merit_order_optimizer return
None, never a partial allocation.  (Negative capacities, which only invalid
unit data can produce, break the claim; see the counterexample.) -/
theorem c4_infeasible (costs powers : List ℚ) (load : ℚ) (names : List String)
    (hlen1 : costs.length = powers.length) (hlen2 : powers.length = names.length)
    (hnn : ∀ p ∈ powers, 0 ≤ p) (hgt : powers.sum < load) :
    merit_order_optimizer costs powers load names = none := by
  have hnz : ∀ x ∈ costs.zip (powers.zip names), 0 ≤ x.2.1 :=
    fun x hx => hnn _ (mem_zip3_power hx)
  rw [merit_none_iff costs powers load names hnz]
  have hsp : sumPowers (costs.zip (powers.zip names)) = powers.sum := by
    unfold sumPowers
    rw [zip3_map_power costs powers names hlen1 hlen2]
  rw [hsp]
  exact hgt

/-- C6 (amended): whenever merit_order_optimizer returns an allocation, every
unit whose flexible capacity is exactly 0 is assigned exactly 0, at any
position of the ascending-cost order and for any target load.  The guarantee
does not extend to strictly negative capacities: there a unit can receive a
nonzero (negative) amount, as the counterexample shows. -/
theorem c6_zero_capacity (costs powers : List ℚ) (load : ℚ) (names : List String)
    (out : List (ℚ × String))
    (h : merit_order_optimizer costs powers load names = some out) (i : ℕ)
    (h1 : i < (sortTriples (costs.zip (powers.zip names))).length) (h2 : i < out.length)
    (hz : (sortTriples (costs.zip (powers.zip names)))[i].2.1 = 0) :
    out[i].1 = 0 := by
  have hl := merit_some_out h
  subst hl
  exact allocLoop_zero_get load _ 0 i h1 h2 hz

/-- C7: with nonnegative capacities and two solvable targets load1 ≤ load2,
every unit receives at load2 at least what it received at load1 (hence a
unit filled to capacity stays at least as full), and no unit is ever
allocated a negative amount at either load. -/
theorem c7_monotone (costs powers : List ℚ) (names : List String) (load1 load2 : ℚ)
    (a1 a2 : List (ℚ × String))
    (hnn : ∀ p ∈ powers, 0 ≤ p) (hle : load1 ≤ load2)
    (h1 : merit_order_optimizer costs powers load1 names = some a1)
    (h2 : merit_order_optimizer costs powers load2 names = some a2) :
    (∀ i, ∀ hi1 : i < a1.length, ∀ hi2 : i < a2.length,
        a1[i].1 ≤ a2[i].1 ∧ a1[i].2 = a2[i].2) ∧
      (∀ x ∈ a1, 0 ≤ x.1) ∧ (∀ x ∈ a2, 0 ≤ x.1) := by
  have hnz : ∀ x ∈ costs.zip (powers.zip names), 0 ≤ x.2.1 :=
    fun x hx => hnn _ (mem_zip3_power hx)
  have hs := sortTriples_nonneg hnz
  have e1 : a1 = greedyalloc load1 (sortTriples (costs.zip (powers.zip names))) 0 := by
    rw [merit_some_out h1]
    exact allocLoop_fst_eq_greedy load1 _ 0 hs
  have e2 : a2 = greedyalloc load2 (sortTriples (costs.zip (powers.zip names))) 0 := by
    rw [merit_some_out h2]
    exact allocLoop_fst_eq_greedy load2 _ 0 hs
  subst e1
  subst e2
  exact ⟨fun i hi1 hi2 => greedyalloc_mono _ load1 load2 0 hle i hi1 hi2,
    fun x hx => (greedyalloc_mem _ _ _ x hx).1,
    fun x hx => (greedyalloc_mem _ _ _ x hx).1⟩

/-- C8: with nonnegative capacities, any target load at most 0 (negative
included) is immediately feasible: the optimizer returns an allocation
giving every unit 0, not the infeasibility signal. -/
theorem c8_nonpositive_load (costs powers : List ℚ) (load : ℚ) (names : List String)
    (hnn : ∀ p ∈ powers, 0 ≤ p) (hload : load ≤ 0) :
    merit_order_optimizer costs powers load names =
      some ((sortTriples (costs.zip (powers.zip names))).map
        (fun x => ((0 : ℚ), x.2.2))) := by
  have hnz : ∀ x ∈ costs.zip (powers.zip names), 0 ≤ x.2.1 :=
    fun x hx => hnn _ (mem_zip3_power hx)
  have hs := sortTriples_nonneg hnz
  unfold merit_order_optimizer
  dsimp only
  rw [allocLoop_snd_eq load _ 0 hs, allocLoop_fst_eq_greedy load _ 0 hs,
    greedyalloc_zeros load _ 0 hs (by linarith)]
  rw [if_neg (not_lt.mpr (le_trans hload (le_max_left _ _)))]

/-- C10: a request with an empty powerplants array always yields the
single-element infeasibility message body, for every load including
load ≤ 0, because the handler tests the allocator result for truthiness and
an empty feasible allocation is falsy exactly like None. -/
theorem c10_empty_plants (load : ℚ) (fuels : Fuels) :
    post ⟨load, fuels, []⟩ = Except.ok [OutItem.message infeasibleMessage] := by
  simp only [post, process_input, costsOf, List.map_nil, List.sum_nil, sub_zero,
    merit_order_optimizer, List.zip_nil_left, sortTriples, List.insertionSort, allocLoop]
  split_ifs <;> rfl

/-- C5 (amended): for a valid request (thermal efficiencies positive,
pmin ≤ pmax, nonnegative wind fraction, unique names), every per-unit value
in the response is the one-decimal rounding of a physical output lying in
the unit's range [pmin, pmax]; the rounded response value itself is only
guaranteed to lie in [pmin - 0.05, pmax + 0.05], and it can exceed pmax
(see the counterexample), so the claim's "including after rounding" fails. -/
theorem c5_range (input : Payload) (out : List OutItem)
    (hval1 : ∀ p ∈ input.powerplants, isThermal p = true → 0 < p.efficiency)
    (hval2 : ∀ p ∈ input.powerplants, p.pmin ≤ p.pmax)
    (hw : 0 ≤ input.fuels.windPct)
    (hnd : (input.powerplants.map (fun p => p.name)).Nodup)
    (hpost : post input = Except.ok out) :
    ∀ name p, OutItem.entry name p ∈ out →
      ∃ pp, pp ∈ input.powerplants ∧ pp.name = name ∧
        (∃ q, pp.pmin ≤ q ∧ q ≤ pp.pmax ∧ p = round1 q) ∧
        pp.pmin - 1/20 ≤ p ∧ p ≤ pp.pmax + 1/20 := by
  intro name p hmem
  obtain ⟨pw, cs, ld, ns, l, hpi, hopt, pn, hpn, hpname, hre⟩ := post_ok_entry hpost hmem
  obtain ⟨hcs, hpw, hld, hns⟩ := process_input_ok_parts hpi
  have hnn : ∀ x ∈ pw, 0 ≤ x := by
    rw [hpw]
    exact powers_nonneg input hval1 hval2 hw
  obtain ⟨pp, hpp, hppname, halloc0, hallocle⟩ := optimizer_entry_unit hpi hopt hnn hpn
  have hre2 := reexpand_eval hnd hpp hppname
  rw [hre2] at hre
  have hinj := Except.ok.inj hre
  injection hinj with hn1 hp1
  have hq : pp.pmin ≤ (if effectiveEfficiency input pp = 0 then pn.1
        else pn.1 / effectiveEfficiency input pp) + pp.pmin ∧
      (if effectiveEfficiency input pp = 0 then pn.1
        else pn.1 / effectiveEfficiency input pp) + pp.pmin ≤ pp.pmax := by
    by_cases h0 : effectiveEfficiency input pp = 0
    · have hc0 : effectiveEfficiency input pp * (pp.pmax - pp.pmin) = 0 := by
        rw [h0]
        ring
      have hz : pn.1 = 0 := le_antisymm (hc0 ▸ hallocle) halloc0
      rw [if_pos h0, hz, zero_add]
      exact ⟨le_refl _, hval2 pp hpp⟩
    · have heffpos : 0 < effectiveEfficiency input pp :=
        lt_of_le_of_ne (effectiveEfficiency_nonneg input pp (hval1 pp hpp) hw) (Ne.symm h0)
      have hdiv : pn.1 / effectiveEfficiency input pp ≤ pp.pmax - pp.pmin := by
        rw [div_le_iff₀ heffpos]
        calc pn.1 ≤ effectiveEfficiency input pp * (pp.pmax - pp.pmin) := hallocle
          _ = (pp.pmax - pp.pmin) * effectiveEfficiency input pp := by ring
      have hdiv0 : 0 ≤ pn.1 / effectiveEfficiency input pp :=
        div_nonneg halloc0 (le_of_lt heffpos)
      rw [if_neg h0]
      exact ⟨by linarith, by linarith⟩
  have habs := abs_le.mp (abs_round1_sub
    ((if effectiveEfficiency input pp = 0 then pn.1
      else pn.1 / effectiveEfficiency input pp) + pp.pmin))
  refine ⟨pp, hpp, by rw [hppname, hpname], ⟨_, hq.1, hq.2, hp1.symm⟩, ?_, ?_⟩
  · rw [← hp1]
    have h1 := hq.1
    have h2 := habs.1
    linarith
  · rw [← hp1]
    have h1 := hq.2
    have h2 := habs.2
    linarith

/-- C9: a dispatched unit whose effective efficiency is 0 (a wind turbine
under wind availability 0) is allocated 0 by the optimizer, the re-expansion
skips the division and yields exactly pmin, and the response records the
one-decimal rounding of pmin with no error surfacing.  (A thermal unit with
efficiency 0 never reaches re-expansion: process_input already fails.) -/
theorem c9_zero_efficiency (input : Payload) (out : List OutItem)
    (hnd : (input.powerplants.map (fun p => p.name)).Nodup)
    (hpost : post input = Except.ok out) :
    ∀ name p, OutItem.entry name p ∈ out →
      ∀ pp, pp ∈ input.powerplants → pp.name = name →
        effectiveEfficiency input pp = 0 → p = round1 pp.pmin := by
  intro name p hmem pp hpp hname heff
  obtain ⟨pw, cs, ld, ns, l, hpi, hopt, pn, hpn, hpname, hre⟩ := post_ok_entry hpost hmem
  obtain ⟨pp0, hpp0, hpp0name, hzero⟩ := optimizer_entry_unit_zero hpi hopt hpn
  have hppeq : pp = pp0 := by
    apply List.inj_on_of_nodup_map hnd hpp hpp0
    rw [hname, hpp0name, hpname]
  have halloc : pn.1 = 0 := by
    apply hzero
    rw [← hppeq, heff, zero_mul]
  have hre2 := reexpand_eval hnd hpp (by rw [hname, hpname])
  rw [hre2] at hre
  have hinj := Except.ok.inj hre
  injection hinj with hn1 hp1
  rw [← hp1, if_pos heff, halloc, zero_add]

/-- C1 is violated by the code: for c1Payload (load 8, one valid gasfired
unit, ample capacity) the handler answers a plan of 16.0, missing the
requested load 8 by 8, far beyond the 0.1 tolerance: the efficiency-scaled
reduction of process_input is not inverted consistently by the
re-expansion, so the returned outputs do not sum to the load. -/
theorem c1_sum_violation :
    post c1Payload = Except.ok [OutItem.entry "A" 16] ∧
      ¬ |(16 : ℚ) - c1Payload.load| ≤ 1/10 := by
  constructor
  · norm_num [post, process_input, costsOf, cost1, isThermal, merit_order_optimizer,
      sortTriples, List.insertionSort, List.orderedInsert, allocLoop, buildOutput,
      reexpand, effectiveEfficiency, round1, roundHalfEven, round_eq, Int.fract,
      c1Payload, List.find?, List.zip_cons_cons]
  · norm_num [c1Payload]

/-- C2 is violated as stated: for c2Payload the input order of the units is
["A", "B"] but the response lists "B" (the zero-cost wind unit) first: the
handler emits entries in ascending-cost order, not input order. -/
theorem c2_counterexample :
    post c2Payload = Except.ok [OutItem.entry "B" 5, OutItem.entry "A" 3] ∧
      c2Payload.powerplants.map (fun p => p.name) = ["A", "B"] ∧
      [OutItem.entry "B" 5, OutItem.entry "A" 3].map outName ≠ ["A", "B"] := by
  refine ⟨?_, by simp [c2Payload], by simp [outName]⟩
  have h1 : process_input c2Payload = Except.ok ([10, 5], [10, 0], 8, ["A", "B"]) := by
    norm_num [process_input, costsOf, cost1, isThermal, c2Payload,
      (by decide : ¬ ("windturbine" = "gasfired")),
      (by decide : ¬ ("windturbine" = "turbojet"))]
  have h2 : merit_order_optimizer [10, 0] [10, 5] 8 ["A", "B"] =
      some [(5, "B"), (3, "A")] := by
    norm_num [merit_order_optimizer, sortTriples, List.insertionSort,
      List.orderedInsert, allocLoop, List.zip_cons_cons]
  have h3 : buildOutput c2Payload [(5, "B"), (3, "A")] =
      Except.ok [OutItem.entry "B" 5, OutItem.entry "A" 3] := by
    norm_num [buildOutput, reexpand, effectiveEfficiency, isThermal, c2Payload,
      List.find?, round1, roundHalfEven, round_eq, Int.fract,
      (by decide : ("A" == "B") = false), (by decide : ("B" == "A") = false),
      (by decide : ¬ ("windturbine" = "gasfired")),
      (by decide : ¬ ("windturbine" = "turbojet"))]
  unfold post
  rw [h1]
  dsimp only
  rw [h2]
  dsimp only
  rw [if_neg (by simp)]
  exact h3

/-- C3 is violated as stated: c3Payload contains a unit with minimum 2 above
maximum 1, yet processing succeeds with no error of any kind, the allocator
is invoked and the handler answers a normal allocation entry. -/
theorem c3_counterexample :
    post c3Payload = Except.ok [OutItem.entry "X" 2] ∧
      ∃ pp ∈ c3Payload.powerplants, pp.pmax < pp.pmin := by
  constructor
  · norm_num [post, process_input, costsOf, cost1, isThermal, merit_order_optimizer,
      sortTriples, List.insertionSort, List.orderedInsert, allocLoop, buildOutput,
      reexpand, effectiveEfficiency, round1, roundHalfEven, round_eq, Int.fract,
      c3Payload, List.find?, List.zip_cons_cons]
  · exact ⟨⟨"X", "gasfired", 1/2, 2, 1⟩, by simp [c3Payload], by norm_num⟩

/-- C4 is violated as stated: with the all-negative capacities [-3, -3, -3]
and target -5, the target strictly exceeds the capacity sum -9, yet
merit_order_optimizer returns an allocation instead of None. -/
theorem c4_counterexample :
    merit_order_optimizer [0, 1, 2] [-3, -3, -3] (-5) ["a", "b", "c"] =
        some [(0, "a"), (0, "b"), (0, "c")] ∧
      ([(-3 : ℚ), -3, -3]).sum < -5 := by
  constructor
  · norm_num [merit_order_optimizer, sortTriples, List.insertionSort,
      List.orderedInsert, allocLoop, List.zip_cons_cons]
  · norm_num

/-- C5 is violated in its rounding clause: for c5Payload the wind unit "W"
has pmax 0.56, is fully loaded, and the response value after rounding is
0.6, strictly above its maximum. -/
theorem c5_counterexample :
    post c5Payload = Except.ok [OutItem.entry "W" (3/5), OutItem.entry "G" (2/5)] ∧
      ∃ pp ∈ c5Payload.powerplants, pp.name = "W" ∧ pp.pmax < 3/5 := by
  constructor
  · have h1 : process_input c5Payload = Except.ok ([14/25, 10], [0, 10], 1, ["W", "G"]) := by
      norm_num [process_input, costsOf, cost1, isThermal, c5Payload,
        (by decide : ¬ ("windturbine" = "gasfired")),
        (by decide : ¬ ("windturbine" = "turbojet"))]
    have h2 : merit_order_optimizer [0, 10] [14/25, 10] 1 ["W", "G"] =
        some [(14/25, "W"), (11/25, "G")] := by
      norm_num [merit_order_optimizer, sortTriples, List.insertionSort,
        List.orderedInsert, allocLoop, List.zip_cons_cons]
    have h3 : buildOutput c5Payload [(14/25, "W"), (11/25, "G")] =
        Except.ok [OutItem.entry "W" (3/5), OutItem.entry "G" (2/5)] := by
      norm_num [buildOutput, reexpand, effectiveEfficiency, isThermal, c5Payload,
        List.find?, round1, roundHalfEven, round_eq, Int.fract,
        (by decide : ("W" == "G") = false), (by decide : ("G" == "W") = false),
        (by decide : ¬ ("windturbine" = "gasfired")),
        (by decide : ¬ ("windturbine" = "turbojet"))]
    unfold post
    rw [h1]
    dsimp only
    rw [h2]
    dsimp only
    rw [if_neg (by simp)]
    exact h3
  · exact ⟨⟨"W", "windturbine", 1, 0, 14/25⟩, by simp [c5Payload], rfl, by norm_num⟩

/-- C6 is violated as stated for negative capacities: the unit "a" with
flexible capacity -1 is allocated -1, not 0. -/
theorem c6_counterexample :
    merit_order_optimizer [0, 1] [-1, 10] 5 ["a", "b"] =
        some [(-1, "a"), (6, "b")] ∧
      ((-1 : ℚ) ≠ 0) := by
  constructor
  · norm_num [merit_order_optimizer, sortTriples, List.insertionSort,
      List.orderedInsert, allocLoop, List.zip_cons_cons]
  · norm_num

theorem c2_witness :
    ([OutItem.entry "B" 5, OutItem.entry "A" 3].map outName).Perm
      (c2Payload.powerplants.map (fun p => p.name)) := by
  have h1 : process_input c2Payload = Except.ok ([10, 5], [10, 0], 8, ["A", "B"]) := by
    norm_num [process_input, costsOf, cost1, isThermal, c2Payload,
      (by decide : ¬ ("windturbine" = "gasfired")),
      (by decide : ¬ ("windturbine" = "turbojet"))]
  have h2 : merit_order_optimizer [10, 0] [10, 5] 8 ["A", "B"] =
      some [(5, "B"), (3, "A")] := by
    norm_num [merit_order_optimizer, sortTriples, List.insertionSort,
      List.orderedInsert, allocLoop, List.zip_cons_cons]
  have h3 : buildOutput c2Payload [(5, "B"), (3, "A")] =
      Except.ok [OutItem.entry "B" 5, OutItem.entry "A" 3] := by
    norm_num [buildOutput, reexpand, effectiveEfficiency, isThermal, c2Payload,
      List.find?, round1, roundHalfEven, round_eq, Int.fract,
      (by decide : ("A" == "B") = false), (by decide : ("B" == "A") = false),
      (by decide : ¬ ("windturbine" = "gasfired")),
      (by decide : ¬ ("windturbine" = "turbojet"))]
  have hpost : post c2Payload = Except.ok [OutItem.entry "B" 5, OutItem.entry "A" 3] := by
    unfold post
    rw [h1]
    dsimp only
    rw [h2]
    dsimp only
    rw [if_neg (by simp)]
    exact h3
  exact (c2_sorted_order c2Payload [10, 5] [10, 0] 8 ["A", "B"] [(5, "B"), (3, "A")]
    [OutItem.entry "B" 5, OutItem.entry "A" 3] h1 h2 (by simp) hpost).2.1

theorem c3_witness :
    process_input c3zPayload = Except.error PyErr.zeroDivision ∧
      post c3zPayload = Except.error PyErr.zeroDivision := by
  have h := (c3_thermal_zero_only c3zPayload).1.mpr
    ⟨⟨"Z", "gasfired", 0, 0, 10⟩, by simp [c3zPayload], by simp [isThermal], rfl⟩
  exact ⟨h, ((c3_thermal_zero_only c3zPayload).2 PyErr.zeroDivision h).2⟩

theorem c4_witness : merit_order_optimizer [1] [2] 5 ["a"] = none :=
  c4_infeasible [1] [2] 5 ["a"] (by simp) (by simp) (by norm_num)
    (by norm_num [List.sum_cons, List.sum_nil])

theorem c5_witness :
    ∃ pp, pp ∈ c5Payload.powerplants ∧ pp.name = "W" ∧
      (∃ q, pp.pmin ≤ q ∧ q ≤ pp.pmax ∧ (3/5 : ℚ) = round1 q) ∧
      pp.pmin - 1/20 ≤ 3/5 ∧ (3/5 : ℚ) ≤ pp.pmax + 1/20 := by
  have h1 : process_input c5Payload = Except.ok ([14/25, 10], [0, 10], 1, ["W", "G"]) := by
    norm_num [process_input, costsOf, cost1, isThermal, c5Payload,
      (by decide : ¬ ("windturbine" = "gasfired")),
      (by decide : ¬ ("windturbine" = "turbojet"))]
  have h2 : merit_order_optimizer [0, 10] [14/25, 10] 1 ["W", "G"] =
      some [(14/25, "W"), (11/25, "G")] := by
    norm_num [merit_order_optimizer, sortTriples, List.insertionSort,
      List.orderedInsert, allocLoop, List.zip_cons_cons]
  have h3 : buildOutput c5Payload [(14/25, "W"), (11/25, "G")] =
      Except.ok [OutItem.entry "W" (3/5), OutItem.entry "G" (2/5)] := by
    norm_num [buildOutput, reexpand, effectiveEfficiency, isThermal, c5Payload,
      List.find?, round1, roundHalfEven, round_eq, Int.fract,
      (by decide : ("W" == "G") = false), (by decide : ("G" == "W") = false),
      (by decide : ¬ ("windturbine" = "gasfired")),
      (by decide : ¬ ("windturbine" = "turbojet"))]
  have hpost : post c5Payload =
      Except.ok [OutItem.entry "W" (3/5), OutItem.entry "G" (2/5)] := by
    unfold post
    rw [h1]
    dsimp only
    rw [h2]
    dsimp only
    rw [if_neg (by simp)]
    exact h3
  refine c5_range c5Payload [OutItem.entry "W" (3/5), OutItem.entry "G" (2/5)]
    ?_ ?_ (by norm_num [c5Payload]) (by simp [c5Payload]) hpost "W" (3/5) (by simp)
  · intro pp hpp hth
    simp only [c5Payload, List.mem_cons, List.not_mem_nil, or_false] at hpp
    rcases hpp with h | h <;> subst h
    · simp [isThermal] at hth
    · norm_num
  · intro pp hpp
    simp only [c5Payload, List.mem_cons, List.not_mem_nil, or_false] at hpp
    rcases hpp with h | h <;> subst h <;> norm_num

theorem c6_witness :
    (([((0 : ℚ), "a"), ((3 : ℚ), "b")] : List (ℚ × String))[0]).1 = 0 := by
  have h : merit_order_optimizer [1, 2] [0, 4] 3 ["a", "b"] =
      some [(0, "a"), (3, "b")] := by
    norm_num [merit_order_optimizer, sortTriples, List.insertionSort,
      List.orderedInsert, allocLoop, List.zip_cons_cons]
  exact c6_zero_capacity [1, 2] [0, 4] 3 ["a", "b"] [(0, "a"), (3, "b")] h 0
    (by norm_num [sortTriples, List.insertionSort, List.orderedInsert, List.zip_cons_cons])
    (by norm_num)
    (by norm_num [sortTriples, List.insertionSort, List.orderedInsert, List.zip_cons_cons])

theorem c7_witness :
    (([((2 : ℚ), "x"), ((0 : ℚ), "y")] : List (ℚ × String))[0]).1 ≤
      (([((3 : ℚ), "x"), ((2 : ℚ), "y")] : List (ℚ × String))[0]).1 := by
  have h1 : merit_order_optimizer [1, 2] [3, 4] 2 ["x", "y"] =
      some [(2, "x"), (0, "y")] := by
    norm_num [merit_order_optimizer, sortTriples, List.insertionSort,
      List.orderedInsert, allocLoop, List.zip_cons_cons]
  have h2 : merit_order_optimizer [1, 2] [3, 4] 5 ["x", "y"] =
      some [(3, "x"), (2, "y")] := by
    norm_num [merit_order_optimizer, sortTriples, List.insertionSort,
      List.orderedInsert, allocLoop, List.zip_cons_cons]
  exact ((c7_monotone [1, 2] [3, 4] ["x", "y"] 2 5 [(2, "x"), (0, "y")] [(3, "x"), (2, "y")]
    (by norm_num) (by norm_num) h1 h2).1 0 (by norm_num) (by norm_num)).1

theorem c8_witness : merit_order_optimizer [1] [2] (-1) ["a"] = some [((0 : ℚ), "a")] := by
  have h := c8_nonpositive_load [1] [2] (-1) ["a"] (by norm_num) (by norm_num)
  simpa [sortTriples, List.insertionSort, List.orderedInsert, List.zip_cons_cons] using h

theorem c9_witness : (2 : ℚ) = round1 2 := by
  have h1 : process_input c9Payload = Except.ok ([0, 10], [0, 10], 4, ["W", "G"]) := by
    norm_num [process_input, costsOf, cost1, isThermal, c9Payload,
      (by decide : ¬ ("windturbine" = "gasfired")),
      (by decide : ¬ ("windturbine" = "turbojet"))]
  have h2 : merit_order_optimizer [0, 10] [0, 10] 4 ["W", "G"] =
      some [(0, "W"), (4, "G")] := by
    norm_num [merit_order_optimizer, sortTriples, List.insertionSort,
      List.orderedInsert, allocLoop, List.zip_cons_cons]
  have h3 : buildOutput c9Payload [(0, "W"), (4, "G")] =
      Except.ok [OutItem.entry "W" 2, OutItem.entry "G" 4] := by
    norm_num [buildOutput, reexpand, effectiveEfficiency, isThermal, c9Payload,
      List.find?, round1, roundHalfEven, round_eq, Int.fract,
      (by decide : ("W" == "G") = false), (by decide : ("G" == "W") = false),
      (by decide : ¬ ("windturbine" = "gasfired")),
      (by decide : ¬ ("windturbine" = "turbojet"))]
  have hpost : post c9Payload = Except.ok [OutItem.entry "W" 2, OutItem.entry "G" 4] := by
    unfold post
    rw [h1]
    dsimp only
    rw [h2]
    dsimp only
    rw [if_neg (by simp)]
    exact h3
  exact c9_zero_efficiency c9Payload [OutItem.entry "W" 2, OutItem.entry "G" 4]
    (by simp [c9Payload]) hpost "W" 2 (by simp)
    ⟨"W", "windturbine", 1, 2, 5⟩ (by simp [c9Payload]) rfl
    (by norm_num [effectiveEfficiency, isThermal, c9Payload,
      (by decide : ¬ ("windturbine" = "gasfired")),
      (by decide : ¬ ("windturbine" = "turbojet"))])

theorem c10_witness :
    post ⟨5, ⟨2, 3, 40, 7⟩, []⟩ = Except.ok [OutItem.message infeasibleMessage] :=
  c10_empty_plants 5 ⟨2, 3, 40, 7⟩
